import Mathlib

/-!
Shallow embedding of the hundo-leago backend (src/server.js): the league data
model, the auction-resolution engine `resolveAuctionsServer`, the weekly
scheduler jobs `tryAutoAuctionRollover` / `tryAutoWeeklySnapshot`, and the
general-purpose save endpoint `POST /api/league`.

Modelling conventions:
- JSON numbers that the code treats as integers (salaries, amounts, millisecond
  timestamps, bid ids) are `ℤ`.  `Math.random()` values are `ℚ` (a fresh value
  in `[0,1)` per call); the sequence of values returned by successive
  `Math.random()` calls is passed explicitly as `rand : Nat → ℚ`, indexed by
  the number of calls already made.
- Fields that the code guards with `|| fallback` against `undefined`/falsy
  values are `Option`-typed, with explicit coercion functions mirroring the
  JS truthiness test.
- JS `Array.prototype.sort` (stable, ES2019+) is modelled by
  `List.insertionSort` (also stable); under the total preorders used here a
  stable sort's output is unique, so the two agree.  The relation `le a b`
  stands for `comparator(a, b) <= 0`.
- `String.prototype.toLowerCase` / `trim` are modelled character-wise
  (`Char.toLower`, `Char.isWhitespace`), adequate for the ASCII data this
  repository handles.
- `Intl.DateTimeFormat(...).formatToParts` output (`getPartsInTZ`) is the
  structure `PTParts` of wall-clock field strings; the instant→parts timezone
  conversion itself is environment code, so theorems quantify over the parts.
-/

namespace HundoLeago

/-- model of JS `String.prototype.toLowerCase` (character-wise). -/
def jsToLower (s : String) : String := String.mk (s.data.map Char.toLower)

/-- model of JS `String.prototype.trim`: strip leading and trailing whitespace. -/
def jsTrim (s : String) : String :=
  String.mk (((s.data.dropWhile Char.isWhitespace).reverse.dropWhile Char.isWhitespace).reverse)

/-- roster entry (src/server.js lines 264-269): `position` is `Option` because
the sort comparator guards it with `a?.position || "F"`. -/
structure RosterEntry where
  name : String
  salary : ℤ
  position : Option String
  buyoutLockedUntil : ℤ
deriving DecidableEq

structure Team where
  name : String
  roster : List RosterEntry
  buyouts : List String
deriving DecidableEq

/-- free-agent bid (spec §3); `auctionKey` is optional, `position` guarded by
`winner.position || "F"`. -/
structure Bid where
  id : ℤ
  player : String
  team : String
  amount : ℤ
  position : Option String
  timestamp : ℤ
  resolved : Bool
  auctionKey : Option String
deriving DecidableEq

/-- league-log entry (src/server.js lines 286-294).  `id` is `ℚ` because the
code sets it to `nowMs + Math.random()`. -/
structure LogEntry where
  type : String
  id : ℚ
  team : String
  player : String
  amount : ℤ
  position : String
  timestamp : ℤ
deriving DecidableEq

structure Settings where
  frozen : Bool
deriving DecidableEq

/-- root league document (src/server.js `emptyState`, lines 91-103). -/
structure LeagueState where
  teams : List Team
  freeAgents : List Bid
  leagueLog : List LogEntry
  tradeProposals : List String
  tradeBlock : List String
  settings : Settings
  nextAuctionDeadline : Option ℤ
  lastAutoWeeklySnapshotId : Option String
  lastAutoAuctionRolloverId : Option String
deriving DecidableEq

/-- src/server.js line 200. -/
def BUYOUT_LOCK_MS : ℤ := 14 * 24 * 60 * 60 * 1000

/-- JS `x || "F"` for the optional position string (empty string is falsy). -/
def posOrF : Option String → String
  | some s => if s = "" then "F" else s
  | none => "F"

/-- grouping key of a bid (src/server.js lines 220-224):
`String(bid?.auctionKey || String(bid?.player || "").trim().toLowerCase()).trim().toLowerCase()`. -/
def bidKey (b : Bid) : String :=
  let base :=
    match b.auctionKey with
    | some k => if k = "" then jsToLower (jsTrim b.player) else k
    | none => jsToLower (jsTrim b.player)
  jsToLower (jsTrim base)

/-- winner-selection order (src/server.js lines 242-249): `bidLE a b` is
`comparator(a,b) <= 0` for the comparator that sorts by amount descending,
then timestamp ascending.  `Number(x) || 0` is the identity on the `ℤ`-valued
fields of the model. -/
def bidLE (a b : Bid) : Bool :=
  if a.amount = b.amount then decide (a.timestamp ≤ b.timestamp)
  else decide (b.amount < a.amount)

/-- roster order (src/server.js lines 273-283): forwards before defense,
salary high→low, tie-break name ascending (`localeCompare` modelled by the
lexicographic order on `String`).  `rosterLE a b` is `comparator(a,b) <= 0`. -/
def rosterLE (a b : RosterEntry) : Bool :=
  let aIsD : Bool := posOrF a.position = "D"
  let bIsD : Bool := posOrF b.position = "D"
  if aIsD != bIsD then !aIsD
  else if a.salary = b.salary then decide (a.name ≤ b.name)
  else decide (b.salary < a.salary)

/-- the winner-selection order as a decidable relation (for `insertionSort`). -/
def bidOrder : Bid → Bid → Prop := fun a b => bidLE a b = true

instance : DecidableRel bidOrder :=
  fun a b => inferInstanceAs (Decidable (bidLE a b = true))

/-- the roster order as a decidable relation (for `insertionSort`). -/
def rosterOrder : RosterEntry → RosterEntry → Prop := fun a b => rosterLE a b = true

instance : DecidableRel rosterOrder :=
  fun a b => inferInstanceAs (Decidable (rosterLE a b = true))

/-- keys of the `bidsByPlayer` map in first-insertion order, models the
`Map` construction of src/server.js lines 218-229 (`if (!key) continue`
drops empty keys). -/
def groupKeysFrom (ks : List String) (bids : List Bid) : List String :=
  bids.foldl (fun ks b =>
    let k := bidKey b
    if k = "" then ks else if k ∈ ks then ks else ks ++ [k]) ks

def groupKeys (bids : List Bid) : List String := groupKeysFrom [] bids

/-- accumulator of the per-auction loop (src/server.js lines 238-295):
the mutable `nextTeams`, `resolvedBidIds` and `newLogs`. -/
structure ResolveAcc where
  teams : List Team
  resolvedIds : List ℤ
  newLogs : List LogEntry
deriving DecidableEq

/-- body of the per-auction loop (src/server.js lines 241-295) for one group
`playerBids`.  The log id `nowMs + Math.random()` consumes the
`acc.newLogs.length`-th random value (one `Math.random()` call per appended
log). -/
def resolveGroup (nowMs : ℤ) (rand : Nat → ℚ) (acc : ResolveAcc) (playerBids : List Bid) :
    ResolveAcc :=
  match (playerBids.insertionSort bidOrder).head? with
  | none => acc
  | some winner =>
    let resolvedIds := acc.resolvedIds ++ playerBids.map (fun b => b.id)
    match acc.teams.findIdx? (fun t => t.name = winner.team) with
    | none => { acc with resolvedIds := resolvedIds }
    | some teamIdx =>
      let entry : RosterEntry :=
        { name := winner.player
          salary := winner.amount
          position := some (posOrF winner.position)
          buyoutLockedUntil := nowMs + BUYOUT_LOCK_MS }
      let teams := acc.teams.modify
        (fun t => { t with roster := (t.roster ++ [entry]).insertionSort rosterOrder }) teamIdx
      let log : LogEntry :=
        { type := "faSigned"
          id := (nowMs : ℚ) + rand acc.newLogs.length
          team := winner.team
          player := winner.player
          amount := winner.amount
          position := posOrF winner.position
          timestamp := nowMs }
      { teams := teams, resolvedIds := resolvedIds, newLogs := acc.newLogs ++ [log] }

structure ResolveResult where
  nextTeams : List Team
  nextFreeAgents : List Bid
  nextLeagueLog : List LogEntry
  newLogs : List LogEntry
deriving DecidableEq

/-- src/server.js lines 207-301.  The `Array.isArray` guards are vacuous in
the typed model; the initial `teams.map` structural copy is the identity under
value semantics; map iteration order is key first-insertion order. -/
def resolveAuctionsServer (state : LeagueState) (nowMs : ℤ) (rand : Nat → ℚ) : ResolveResult :=
  let teams := state.teams
  let bids := state.freeAgents
  let leagueLog := state.leagueLog
  let activeBids := bids.filter (fun b => !b.resolved)
  if activeBids.isEmpty then
    { nextTeams := teams, nextFreeAgents := bids, nextLeagueLog := leagueLog, newLogs := [] }
  else
    let acc := (groupKeys activeBids).foldl
      (fun acc k => resolveGroup nowMs rand acc (activeBids.filter (fun b => bidKey b = k)))
      { teams := teams, resolvedIds := [], newLogs := [] }
    { nextTeams := acc.teams
      nextFreeAgents := bids.filter (fun b => !acc.resolvedIds.contains b.id)
      nextLeagueLog := acc.newLogs ++ leagueLog
      newLogs := acc.newLogs }

/-- wall-clock fields in the target timezone, output of `getPartsInTZ`
(src/server.js lines 127-144): `{ weekday, year, month, day, hour, minute }`.
`Intl.DateTimeFormat("en-US", { weekday:"short", year:"numeric",
month:"2-digit", day:"2-digit", hour:"2-digit", minute:"2-digit",
hour12:false })` yields a short weekday name and zero-padded digit strings. -/
structure PTParts where
  weekday : String
  year : String
  month : String
  day : String
  hour : String
  minute : String
deriving DecidableEq

/-- model of JS `Number()` on the digit strings `getPartsInTZ` yields
(`none` models `NaN`, so every comparison against it is false). -/
def jsNumber (s : String) : Option ℤ :=
  if s.data.all Char.isDigit then
    some ((s.data.foldl (fun n c => n * 10 + (c.toNat - 48)) 0 : ℕ) : ℤ)
  else none

/-- src/server.js lines 149-152. -/
def buildAutoSnapshotId (p : PTParts) : String :=
  "auto-" ++ p.year ++ "-" ++ p.month ++ "-" ++ p.day ++ "-" ++ p.hour ++ p.minute ++ "PT"

/-- src/server.js lines 202-205. -/
def buildAutoAuctionRolloverId (p : PTParts) : String :=
  "auction-" ++ p.year ++ "-" ++ p.month ++ "-" ++ p.day ++ "-" ++ p.hour ++ p.minute ++ "PT"

/-- the weekday/hour/minute window test both weekly jobs perform verbatim
(src/server.js lines 168-173 and lines 308-313): early return unless
`weekday === "Sun"`, then `hour === 16 && minute >= 0 && minute <= 10`
on `Number(parts.hour)` / `Number(parts.minute)`. -/
def weeklyWindowCheck (p : PTParts) : Bool :=
  decide (p.weekday = "Sun") &&
    decide (jsNumber p.hour = some 16) &&
    (match jsNumber p.minute with
     | some m => decide (0 ≤ m) && decide (m ≤ 10)
     | none => false)

/-- src/server.js lines 303-340 with the ambient state store made explicit:
`store` is the persisted document `loadLeagueState()` returns, the result is
the store content afterwards together with whether `saveLeagueState` ran. -/
def tryAutoAuctionRollover (p : PTParts) (store : LeagueState) (nowMs : ℤ) (rand : Nat → ℚ) :
    LeagueState × Bool :=
  if !weeklyWindowCheck p then (store, false)
  else
    let rolloverId := buildAutoAuctionRolloverId { p with minute := "00" }
    if store.lastAutoAuctionRolloverId = some rolloverId then (store, false)
    else
      let r := resolveAuctionsServer store nowMs rand
      ({ store with
          teams := r.nextTeams
          freeAgents := r.nextFreeAgents
          leagueLog := r.nextLeagueLog
          lastAutoAuctionRolloverId := some rolloverId }, true)

/-- src/server.js lines 163-195; the second component is the snapshot file
written (id and content), `none` when the job did not fire (no save either:
the write of the marker happens exactly when a snapshot is written). -/
def tryAutoWeeklySnapshot (p : PTParts) (store : LeagueState) :
    LeagueState × Option (String × LeagueState) :=
  if !weeklyWindowCheck p then (store, none)
  else
    let snapshotId := buildAutoSnapshotId { p with minute := "00" }
    if store.lastAutoWeeklySnapshotId = some snapshotId then (store, none)
    else
      ({ store with lastAutoWeeklySnapshotId := some snapshotId }, some (snapshotId, store))

/-- request body of `POST /api/league`; `none` in a collection field models
"absent or not an array" (the `Array.isArray` guard), `none` in `settings`
models "absent or not an object". -/
structure SaveBody where
  teams : Option (List Team)
  freeAgents : Option (List Bid)
  leagueLog : Option (List LogEntry)
  tradeProposals : Option (List String)
  tradeBlock : Option (List String)
  settings : Option Settings
  nextAuctionDeadline : Option ℤ
  lastAutoWeeklySnapshotId : Option String
  lastAutoAuctionRolloverId : Option String
deriving DecidableEq

/-- JS `x || null` on an optional string: the empty string is falsy. -/
def orNullStr : Option String → Option String
  | some s => if s = "" then none else some s
  | none => none

/-- JS `x || y` on an optional number: `0` is falsy. -/
def orNum : Option ℤ → Option ℤ → Option ℤ
  | some n, y => if n = 0 then y else some n
  | none, y => y

/-- the state written by `POST /api/league` (src/server.js lines 354-378):
`{ ...prev, collections from body, markers preserved from prev }`. -/
def postApiLeague (prev : LeagueState) (body : SaveBody) : LeagueState :=
  { prev with
    teams := body.teams.getD []
    freeAgents := body.freeAgents.getD []
    leagueLog := body.leagueLog.getD []
    tradeProposals := body.tradeProposals.getD []
    tradeBlock := body.tradeBlock.getD []
    settings := body.settings.getD prev.settings
    nextAuctionDeadline := orNum body.nextAuctionDeadline (orNum prev.nextAuctionDeadline none)
    lastAutoWeeklySnapshotId := orNullStr prev.lastAutoWeeklySnapshotId
    lastAutoAuctionRolloverId := orNullStr prev.lastAutoAuctionRolloverId }

/-- the state mutation a fired auction rollover persists
(src/server.js lines 323-331), as one step on the stored document. -/
def applyRollover (store : LeagueState) (nowMs : ℤ) (rand : Nat → ℚ) : LeagueState :=
  let r := resolveAuctionsServer store nowMs rand
  { store with
    teams := r.nextTeams
    freeAgents := r.nextFreeAgents
    leagueLog := r.nextLeagueLog }

/-! Basic facts about the two comparator orders: both are total preorders,
which is what makes the JS stable sort well defined. -/

lemma bidLE_total (a b : Bid) : bidLE a b = true ∨ bidLE b a = true := by
  simp only [bidLE]
  split_ifs <;> simp only [decide_eq_true_eq] <;> omega

lemma bidLE_trans (a b c : Bid) (hab : bidLE a b = true) (hbc : bidLE b c = true) :
    bidLE a c = true := by
  simp only [bidLE] at *
  split_ifs at * <;> simp only [decide_eq_true_eq] at * <;> omega

instance : IsTotal Bid bidOrder := ⟨bidLE_total⟩
instance : IsTrans Bid bidOrder := ⟨bidLE_trans⟩

lemma rosterLE_total (a b : RosterEntry) : rosterLE a b = true ∨ rosterLE b a = true := by
  by_cases pa : posOrF a.position = "D" <;> by_cases pb : posOrF b.position = "D" <;>
    simp [rosterLE, pa, pb] <;>
      split_ifs <;>
        first
          | omega
          | exact le_total _ _

lemma rosterLE_trans (a b c : RosterEntry) (hab : rosterLE a b = true)
    (hbc : rosterLE b c = true) : rosterLE a c = true := by
  by_cases pa : posOrF a.position = "D" <;> by_cases pb : posOrF b.position = "D" <;>
    by_cases pc : posOrF c.position = "D" <;>
      simp [rosterLE, pa, pb, pc] at hab hbc ⊢ <;>
        split_ifs at * <;>
          first
            | omega
            | exact le_trans hab hbc

instance : IsTotal RosterEntry rosterOrder := ⟨rosterLE_total⟩
instance : IsTrans RosterEntry rosterOrder := ⟨rosterLE_trans⟩

/-- erase the one nondeterministic field of a log entry (its
`nowMs + Math.random()` id). -/
def LogEntry.eraseId (e : LogEntry) : LogEntry := { e with id := 0 }

/-! Structural lemmas about one iteration of the per-auction loop. -/

lemma map_modify {α β : Type} (g : α → β) (f : α → α) (h : ∀ a, g (f a) = g a)
    (i : ℕ) (l : List α) : (List.modify f i l).map g = l.map g := by
  apply List.ext_getElem?
  intro n
  simp only [List.getElem?_map, List.getElem?_modify]
  cases l[n]? with
  | none => rfl
  | some a => simp only [Option.map_some]; split <;> simp [h]

lemma resolveGroup_names (n : ℤ) (r : Nat → ℚ) (a : ResolveAcc) (g : List Bid) :
    (resolveGroup n r a g).teams.map Team.name = a.teams.map Team.name := by
  rcases hw : (g.insertionSort bidOrder).head? with _ | w <;>
    simp only [resolveGroup, hw]
  rcases hidx : List.findIdx? (fun t => decide (t.name = w.team)) a.teams with _ | i <;>
    simp only [hidx]
  apply map_modify
  intro t
  rfl

lemma resolveGroup_resolvedIds (n : ℤ) (r : Nat → ℚ) (a : ResolveAcc) (g : List Bid) :
    ∃ t, (resolveGroup n r a g).resolvedIds = a.resolvedIds ++ t ∧
      ∀ x ∈ t, ∃ b ∈ g, b.id = x := by
  rcases hw : (g.insertionSort bidOrder).head? with _ | w <;>
    simp only [resolveGroup, hw]
  · exact ⟨[], by simp⟩
  rcases hidx : List.findIdx? (fun t => decide (t.name = w.team)) a.teams with _ | i <;>
    simp only [hidx] <;>
    exact ⟨g.map (fun b => b.id), rfl, by
      simp only [List.mem_map]
      rintro x ⟨b, hb, rfl⟩
      exact ⟨b, hb, rfl⟩⟩

lemma resolveGroup_mem_resolvedIds (n : ℤ) (r : Nat → ℚ) (a : ResolveAcc) (g : List Bid)
    (b : Bid) (hb : b ∈ g) : b.id ∈ (resolveGroup n r a g).resolvedIds := by
  have hne : g.insertionSort bidOrder ≠ [] := by
    intro h
    have := (List.perm_insertionSort bidOrder g).symm.mem_iff.mp hb
    simp [h] at this
  rcases hw : (g.insertionSort bidOrder).head? with _ | w
  · exact absurd (List.head?_eq_none_iff.mp hw) hne
  simp only [resolveGroup, hw]
  rcases hidx : List.findIdx? (fun t => decide (t.name = w.team)) a.teams with _ | i <;>
    simp only [hidx] <;>
    · simp only [List.mem_append, List.mem_map]
      exact Or.inr ⟨b, hb, rfl⟩

lemma resolveGroup_frame (n : ℤ) (r : Nat → ℚ) (a1 a2 : ResolveAcc) (g : List Bid)
    (ht : a1.teams = a2.teams) (hl : a1.newLogs = a2.newLogs) :
    (resolveGroup n r a1 g).teams = (resolveGroup n r a2 g).teams ∧
    (resolveGroup n r a1 g).newLogs = (resolveGroup n r a2 g).newLogs := by
  rcases hw : (g.insertionSort bidOrder).head? with _ | w <;>
    simp only [resolveGroup, hw]
  · exact ⟨ht, hl⟩
  rw [ht, hl]
  rcases hidx : List.findIdx? (fun t => decide (t.name = w.team)) a2.teams with _ | i <;>
    simp only [hidx] <;> simp

lemma resolveGroup_unknownTeam (n : ℤ) (r : Nat → ℚ) (a : ResolveAcc) (g : List Bid) (w : Bid)
    (hw : (g.insertionSort bidOrder).head? = some w)
    (hteam : ∀ nm ∈ a.teams.map Team.name, nm ≠ w.team) :
    resolveGroup n r a g = { a with resolvedIds := a.resolvedIds ++ g.map (fun b => b.id) } := by
  have hidx : List.findIdx? (fun t => decide (t.name = w.team)) a.teams = none := by
    rw [List.findIdx?_eq_none_iff]
    intro t ht
    simp only [decide_eq_false_iff_not]
    exact hteam t.name (List.mem_map_of_mem Team.name ht)
  simp only [resolveGroup, hw, hidx]



lemma resolveGroup_rand_congr (n : ℤ) (r1 r2 : Nat → ℚ) (a1 a2 : ResolveAcc) (g : List Bid)
    (ht : a1.teams = a2.teams) (hi : a1.resolvedIds = a2.resolvedIds)
    (hl : a1.newLogs.map LogEntry.eraseId = a2.newLogs.map LogEntry.eraseId)
    (hn : a1.newLogs.length = a2.newLogs.length) :
    (resolveGroup n r1 a1 g).teams = (resolveGroup n r2 a2 g).teams ∧
    (resolveGroup n r1 a1 g).resolvedIds = (resolveGroup n r2 a2 g).resolvedIds ∧
    (resolveGroup n r1 a1 g).newLogs.map LogEntry.eraseId =
      (resolveGroup n r2 a2 g).newLogs.map LogEntry.eraseId ∧
    (resolveGroup n r1 a1 g).newLogs.length = (resolveGroup n r2 a2 g).newLogs.length := by
  rcases hw : (g.insertionSort bidOrder).head? with _ | w <;>
    simp only [resolveGroup, hw]
  · exact ⟨ht, hi, hl, hn⟩
  rw [ht, hi]
  rcases hidx : List.findIdx? (fun t => decide (t.name = w.team)) a2.teams with _ | i <;>
    simp only [hidx]
  · refine ⟨?_, ?_, ?_, ?_⟩ <;> trivial
  · refine ⟨?_, ?_, ?_, ?_⟩
    · trivial
    · trivial
    · simp only [List.map_append, hl, List.map_cons, List.map_nil]
      rfl
    · simp only [List.length_append, hn, List.length_cons]

lemma resolveGroup_roster_shape (n : ℤ) (r : Nat → ℚ) (a : ResolveAcc) (g : List Bid) (i : ℕ) :
    (resolveGroup n r a g).teams[i]? = a.teams[i]? ∨
    ∃ (tm : Team) (l : List RosterEntry), (resolveGroup n r a g).teams[i]? = some tm ∧
      tm.roster = l.insertionSort rosterOrder := by
  rcases hw : (g.insertionSort bidOrder).head? with _ | w <;>
    simp only [resolveGroup, hw]
  · left; trivial
  rcases hidx : List.findIdx? (fun t => decide (t.name = w.team)) a.teams with _ | j <;>
    simp only [hidx]
  · left; trivial
  by_cases hji : j = i
  · subst hji
    rw [List.getElem?_modify]
    rcases h : a.teams[j]? with _ | t
    · left; simp
    · right
      simp only [Option.map_some, if_true]
      exact ⟨_, _, rfl, rfl⟩
  · left
    rw [List.getElem?_modify]
    rcases h : a.teams[i]? with _ | t
    · simp
    · simp only [Option.map_some]
      rw [if_neg hji]

lemma foldGroups_names (n : ℤ) (r : Nat → ℚ) (groups : List (List Bid)) :
    ∀ a : ResolveAcc,
      (groups.foldl (resolveGroup n r) a).teams.map Team.name = a.teams.map Team.name := by
  induction groups with
  | nil => intro a; rfl
  | cons g gs ih => intro a; rw [List.foldl_cons, ih, resolveGroup_names]

lemma foldGroups_frame (n : ℤ) (r : Nat → ℚ) (groups : List (List Bid)) :
    ∀ a1 a2 : ResolveAcc, a1.teams = a2.teams → a1.newLogs = a2.newLogs →
      (groups.foldl (resolveGroup n r) a1).teams = (groups.foldl (resolveGroup n r) a2).teams ∧
      (groups.foldl (resolveGroup n r) a1).newLogs =
        (groups.foldl (resolveGroup n r) a2).newLogs := by
  induction groups with
  | nil => intro a1 a2 ht hl; exact ⟨ht, hl⟩
  | cons g gs ih =>
    intro a1 a2 ht hl
    obtain ⟨ht', hl'⟩ := resolveGroup_frame n r a1 a2 g ht hl
    exact ih _ _ ht' hl'

lemma foldGroups_resolvedIds (n : ℤ) (r : Nat → ℚ) (groups : List (List Bid)) :
    ∀ a : ResolveAcc, ∃ t, (groups.foldl (resolveGroup n r) a).resolvedIds = a.resolvedIds ++ t ∧
      ∀ x ∈ t, ∃ g ∈ groups, ∃ b ∈ g, b.id = x := by
  induction groups with
  | nil => intro a; exact ⟨[], by simp⟩
  | cons g gs ih =>
    intro a
    obtain ⟨t1, h1, hs1⟩ := resolveGroup_resolvedIds n r a g
    obtain ⟨t2, h2, hs2⟩ := ih (resolveGroup n r a g)
    refine ⟨t1 ++ t2, ?_, ?_⟩
    · rw [List.foldl_cons, h2, h1, List.append_assoc]
    · intro x hx
      rcases List.mem_append.mp hx with hx | hx
      · obtain ⟨b, hb, hbx⟩ := hs1 x hx
        exact ⟨g, List.mem_cons_self g gs, b, hb, hbx⟩
      · obtain ⟨g', hg', b, hb, hbx⟩ := hs2 x hx
        exact ⟨g', List.mem_cons_of_mem g hg', b, hb, hbx⟩

lemma foldGroups_mem_resolvedIds (n : ℤ) (r : Nat → ℚ) (groups : List (List Bid))
    (a : ResolveAcc) (x : ℤ) (hx : x ∈ a.resolvedIds) :
    x ∈ (groups.foldl (resolveGroup n r) a).resolvedIds := by
  obtain ⟨t, ht, -⟩ := foldGroups_resolvedIds n r groups a
  rw [ht]
  exact List.mem_append_left t hx

lemma foldGroups_rand_congr (n : ℤ) (r1 r2 : Nat → ℚ) (groups : List (List Bid)) :
    ∀ a1 a2 : ResolveAcc, a1.teams = a2.teams → a1.resolvedIds = a2.resolvedIds →
      a1.newLogs.map LogEntry.eraseId = a2.newLogs.map LogEntry.eraseId →
      a1.newLogs.length = a2.newLogs.length →
      (groups.foldl (resolveGroup n r1) a1).teams = (groups.foldl (resolveGroup n r2) a2).teams ∧
      (groups.foldl (resolveGroup n r1) a1).resolvedIds =
        (groups.foldl (resolveGroup n r2) a2).resolvedIds ∧
      (groups.foldl (resolveGroup n r1) a1).newLogs.map LogEntry.eraseId =
        (groups.foldl (resolveGroup n r2) a2).newLogs.map LogEntry.eraseId ∧
      (groups.foldl (resolveGroup n r1) a1).newLogs.length =
        (groups.foldl (resolveGroup n r2) a2).newLogs.length := by
  induction groups with
  | nil => intro a1 a2 ht hi hl hn; exact ⟨ht, hi, hl, hn⟩
  | cons g gs ih =>
    intro a1 a2 ht hi hl hn
    obtain ⟨ht', hi', hl', hn'⟩ := resolveGroup_rand_congr n r1 r2 a1 a2 g ht hi hl hn
    exact ih _ _ ht' hi' hl' hn'

lemma foldGroups_roster_shape (n : ℤ) (r : Nat → ℚ) (groups : List (List Bid)) :
    ∀ (a : ResolveAcc) (i : ℕ),
      (groups.foldl (resolveGroup n r) a).teams[i]? = a.teams[i]? ∨
      ∃ (tm : Team) (l : List RosterEntry), (groups.foldl (resolveGroup n r) a).teams[i]? = some tm ∧
        tm.roster = l.insertionSort rosterOrder := by
  induction groups with
  | nil => intro a i; exact Or.inl rfl
  | cons g gs ih =>
    intro a i
    rw [List.foldl_cons]
    rcases ih (resolveGroup n r a g) i with h | h
    · rcases resolveGroup_roster_shape n r a g i with h' | ⟨tm, l, h', hr⟩
      · exact Or.inl (h.trans h')
      · exact Or.inr ⟨tm, l, h.trans h', hr⟩
    · exact Or.inr h

/-- the per-auction fold of `resolveAuctionsServer` in map-fold form
(a restatement of src/server.js lines 232-295, proven equal below). -/
def resolveFold (state : LeagueState) (n : ℤ) (r : Nat → ℚ) : ResolveAcc :=
  let active := state.freeAgents.filter (fun b => !b.resolved)
  ((groupKeys active).map (fun k => active.filter (fun b => decide (bidKey b = k)))).foldl
    (resolveGroup n r) ⟨state.teams, [], []⟩

lemma resolveAuctionsServer_eq (state : LeagueState) (n : ℤ) (r : Nat → ℚ) :
    resolveAuctionsServer state n r =
      { nextTeams := (resolveFold state n r).teams
        nextFreeAgents := state.freeAgents.filter
          (fun b => !(resolveFold state n r).resolvedIds.contains b.id)
        nextLeagueLog := (resolveFold state n r).newLogs ++ state.leagueLog
        newLogs := (resolveFold state n r).newLogs } := by
  by_cases h : (state.freeAgents.filter (fun b => !b.resolved)).isEmpty
  · have hactive : state.freeAgents.filter (fun b => !b.resolved) = [] :=
      List.isEmpty_iff.mp h
    simp only [resolveAuctionsServer, resolveFold, hactive, h, if_true]
    simp [groupKeys, groupKeysFrom]
  · simp only [resolveAuctionsServer, resolveFold, List.foldl_map]
    rw [if_neg (by simp [h])]



lemma groupKeysFrom_cons (ks : List String) (b : Bid) (bs : List Bid) :
    groupKeysFrom ks (b :: bs) =
      groupKeysFrom
        (if bidKey b = "" then ks else if bidKey b ∈ ks then ks else ks ++ [bidKey b]) bs := rfl

lemma mem_groupKeysFrom (bids : List Bid) : ∀ (ks : List String) (k : String),
    k ∈ groupKeysFrom ks bids ↔ k ∈ ks ∨ ∃ b ∈ bids, bidKey b = k ∧ k ≠ "" := by
  induction bids with
  | nil => intro ks k; simp [groupKeysFrom]
  | cons b bs ih =>
    intro ks k
    rw [groupKeysFrom_cons, ih]
    by_cases hk : bidKey b = ""
    · rw [if_pos hk]
      constructor
      · rintro (h | ⟨b', hb', hkey, hne⟩)
        · exact Or.inl h
        · exact Or.inr ⟨b', List.mem_cons_of_mem b hb', hkey, hne⟩
      · rintro (h | ⟨b', hb', hkey, hne⟩)
        · exact Or.inl h
        · rcases List.mem_cons.mp hb' with rfl | hb'
          · exact absurd (hkey.symm.trans hk) hne
          · exact Or.inr ⟨b', hb', hkey, hne⟩
    · rw [if_neg hk]
      by_cases hmem : bidKey b ∈ ks
      · rw [if_pos hmem]
        constructor
        · rintro (h | ⟨b', hb', hkey, hne⟩)
          · exact Or.inl h
          · exact Or.inr ⟨b', List.mem_cons_of_mem b hb', hkey, hne⟩
        · rintro (h | ⟨b', hb', hkey, hne⟩)
          · exact Or.inl h
          · rcases List.mem_cons.mp hb' with rfl | hb'
            · exact Or.inl (hkey ▸ hmem)
            · exact Or.inr ⟨b', hb', hkey, hne⟩
      · rw [if_neg hmem]
        constructor
        · rintro (h | ⟨b', hb', hkey, hne⟩)
          · rcases List.mem_append.mp h with h | h
            · exact Or.inl h
            · have hkb : k = bidKey b := by simpa using h
              exact Or.inr ⟨b, List.mem_cons_self b bs, hkb.symm, by rw [hkb]; exact hk⟩
          · exact Or.inr ⟨b', List.mem_cons_of_mem b hb', hkey, hne⟩
        · rintro (h | ⟨b', hb', hkey, hne⟩)
          · exact Or.inl (List.mem_append_left _ h)
          · rcases List.mem_cons.mp hb' with rfl | hb'
            · exact Or.inl (List.mem_append_right _ (by simp [hkey]))
            · exact Or.inr ⟨b', hb', hkey, hne⟩

lemma mem_groupKeys (bids : List Bid) (k : String) :
    k ∈ groupKeys bids ↔ ∃ b ∈ bids, bidKey b = k ∧ k ≠ "" := by
  rw [groupKeys, mem_groupKeysFrom]
  simp

lemma nodup_groupKeysFrom (bids : List Bid) : ∀ ks : List String, ks.Nodup →
    (groupKeysFrom ks bids).Nodup := by
  induction bids with
  | nil => intro ks h; exact h
  | cons b bs ih =>
    intro ks h
    rw [groupKeysFrom_cons]
    by_cases hk : bidKey b = ""
    · rw [if_pos hk]; exact ih ks h
    · rw [if_neg hk]
      by_cases hmem : bidKey b ∈ ks
      · rw [if_pos hmem]; exact ih ks h
      · rw [if_neg hmem]
        refine ih _ ?_
        simp [List.nodup_append, h, hmem]

lemma nodup_groupKeys (bids : List Bid) : (groupKeys bids).Nodup :=
  nodup_groupKeysFrom bids [] List.nodup_nil

lemma nodup_mem_split {α : Type} (k : α) (l : List α) (hmem : k ∈ l) (hnd : l.Nodup) :
    ∃ l1 l2, l = l1 ++ k :: l2 ∧ k ∉ l1 ∧ k ∉ l2 := by
  obtain ⟨l1, l2, rfl⟩ := List.append_of_mem hmem
  obtain ⟨h1, h2, hdisj⟩ := List.nodup_append.mp hnd
  exact ⟨l1, l2, rfl, fun h => hdisj h (List.mem_cons_self _ _), (List.nodup_cons.mp h2).1⟩

lemma filter_comm' {α : Type} (p q : α → Bool) (l : List α) :
    (l.filter p).filter q = (l.filter q).filter p := by
  rw [List.filter_filter, List.filter_filter]
  apply List.filter_congr
  intro x _
  cases p x <;> cases q x <;> rfl

lemma activeOf_removeGroup (bids : List Bid) (k : String) :
    (bids.filter (fun b => !(!b.resolved && decide (bidKey b = k)))).filter
        (fun b => !b.resolved) =
      (bids.filter (fun b => !b.resolved)).filter (fun b => !decide (bidKey b = k)) := by
  rw [List.filter_filter, List.filter_filter]
  apply List.filter_congr
  intro b _
  cases hr : b.resolved <;> by_cases hk : bidKey b = k <;> simp [hr, hk]

lemma filter_key_of_ne (active : List Bid) (k k' : String) (hne : k' ≠ k) :
    (active.filter (fun b => !decide (bidKey b = k))).filter (fun b => decide (bidKey b = k')) =
      active.filter (fun b => decide (bidKey b = k')) := by
  rw [List.filter_filter]
  apply List.filter_congr
  intro b _
  by_cases h : bidKey b = k'
  · have hbk : ¬(bidKey b = k) := by rw [h]; exact hne
    simp [h, hbk, hne]
  · simp [h]

lemma groupKeysFrom_filter_ne (k : String) (bids : List Bid) :
    ∀ ks : List String,
      groupKeysFrom (ks.filter (fun s => !decide (s = k)))
          (bids.filter (fun b => !decide (bidKey b = k))) =
        (groupKeysFrom ks bids).filter (fun s => !decide (s = k)) := by
  induction bids with
  | nil => intro ks; rfl
  | cons b bs ih =>
    intro ks
    by_cases hbk : bidKey b = k
    · rw [List.filter_cons_of_neg (by simp [hbk]), groupKeysFrom_cons, ← ih]
      congr 1
      by_cases hke : bidKey b = ""
      · rw [if_pos hke]
      · rw [if_neg hke]
        by_cases hmem : bidKey b ∈ ks
        · rw [if_pos hmem]
        · rw [if_neg hmem, List.filter_append]
          simp [hbk]
    · rw [List.filter_cons_of_pos (by simp [hbk]), groupKeysFrom_cons, groupKeysFrom_cons]
      by_cases hke : bidKey b = ""
      · rw [if_pos hke, if_pos hke, ih]
      · rw [if_neg hke, if_neg hke]
        have hmemiff : bidKey b ∈ ks.filter (fun s => !decide (s = k)) ↔ bidKey b ∈ ks := by
          simp [List.mem_filter, hbk]
        by_cases hmem : bidKey b ∈ ks
        · rw [if_pos (hmemiff.mpr hmem), if_pos hmem, ih]
        · rw [if_neg (fun h => hmem (hmemiff.mp h)), if_neg hmem]
          rw [show ks.filter (fun s => !decide (s = k)) ++ [bidKey b] =
              (ks ++ [bidKey b]).filter (fun s => !decide (s = k)) from by
            rw [List.filter_append]; simp [hbk]]
          exact ih _

lemma groupKeysFrom_filter_of_empty (p : Bid → Bool) (bids : List Bid)
    (h : ∀ b ∈ bids, p b = false → bidKey b = "") :
    ∀ ks, groupKeysFrom ks (bids.filter p) = groupKeysFrom ks bids := by
  induction bids with
  | nil => intro ks; rfl
  | cons b bs ih =>
    intro ks
    have hbs : ∀ b' ∈ bs, p b' = false → bidKey b' = "" :=
      fun b' hb' => h b' (List.mem_cons_of_mem b hb')
    cases hp : p b
    · have hke : bidKey b = "" := h b (List.mem_cons_self b bs) hp
      rw [List.filter_cons_of_neg (by simp [hp]), groupKeysFrom_cons, if_pos hke]
      exact ih hbs ks
    · rw [List.filter_cons_of_pos (by simp [hp]), groupKeysFrom_cons, groupKeysFrom_cons]
      exact ih hbs _



/-- two-digit zero-padded rendering, as Intl `"2-digit"` produces. -/
def pad2 (n : ℕ) : String := String.mk [Nat.digitChar (n / 10 % 10), Nat.digitChar (n % 10)]

/-- four-digit rendering, as Intl `year:"numeric"` produces for years 1000-9999. -/
def pad4 (n : ℕ) : String :=
  String.mk [Nat.digitChar (n / 1000 % 10), Nat.digitChar (n / 100 % 10),
    Nat.digitChar (n / 10 % 10), Nat.digitChar (n % 10)]

/-- proleptic Gregorian leap-year rule. -/
def isLeap (y : ℕ) : Bool := (y % 4 == 0 && y % 100 != 0) || y % 400 == 0

def daysInMonth (y m : ℕ) : ℕ :=
  if m = 2 then (if isLeap y then 29 else 28)
  else if m = 4 ∨ m = 6 ∨ m = 9 ∨ m = 11 then 30
  else 31

/-- a local civil date (in the target timezone). -/
structure GDate where
  year : ℕ
  month : ℕ
  day : ℕ
deriving DecidableEq

def GDate.valid (d : GDate) : Prop :=
  1 ≤ d.month ∧ d.month ≤ 12 ∧ 1 ≤ d.day ∧ d.day ≤ daysInMonth d.year d.month

instance (d : GDate) : Decidable d.valid := by unfold GDate.valid; infer_instance

def nextDay (d : GDate) : GDate :=
  if d.day < daysInMonth d.year d.month then { d with day := d.day + 1 }
  else if d.month < 12 then { year := d.year, month := d.month + 1, day := 1 }
  else { year := d.year + 1, month := 1, day := 1 }

def addDays : ℕ → GDate → GDate
  | 0, d => d
  | n + 1, d => addDays n (nextDay d)

/-- wall-clock parts of an instant whose local date in the target timezone is
`d`, weekday name `wd`, hour `hh` and minute `mm` (Intl two-digit rendering). -/
def partsOfDate (wd : String) (d : GDate) (hh mm : ℕ) : PTParts :=
  { weekday := wd, year := pad4 d.year, month := pad2 d.month, day := pad2 d.day,
    hour := pad2 hh, minute := pad2 mm }

lemma daysInMonth_ge (y m : ℕ) : 28 ≤ daysInMonth y m := by
  unfold daysInMonth
  split_ifs <;> omega

lemma daysInMonth_le (y m : ℕ) : daysInMonth y m ≤ 31 := by
  unfold daysInMonth
  split_ifs <;> omega

lemma nextDay_valid (d : GDate) (h : d.valid) : (nextDay d).valid := by
  obtain ⟨h1, h2, h3, h4⟩ := h
  have hge1 := daysInMonth_ge d.year (d.month + 1)
  have hge2 := daysInMonth_ge (d.year + 1) 1
  unfold nextDay GDate.valid
  split_ifs with hd hm <;> dsimp only <;> omega

lemma nextDay_day_le (d : GDate) : (nextDay d).day ≤ d.day + 1 := by
  unfold nextDay
  split_ifs <;> dsimp only <;> omega

lemma addDays_succ (n : ℕ) (d : GDate) : addDays (n + 1) d = nextDay (addDays n d) := by
  induction n generalizing d with
  | zero => rfl
  | succ n ih => rw [show addDays (n + 2) d = addDays (n + 1) (nextDay d) from rfl, ih]; rfl

lemma addDays7_day_ne (d : GDate) (h : d.valid) : (addDays 7 d).day ≠ d.day := by
  have Q : ∀ k, k ≤ 7 → (addDays k d).valid ∧
      (addDays k d = ⟨d.year, d.month, d.day + k⟩ ∨
        ((addDays k d).day ≤ k ∧ 22 ≤ d.day)) := by
    intro k
    induction k with
    | zero => intro _; exact ⟨h, Or.inl rfl⟩
    | succ k ih =>
      intro hk7
      obtain ⟨hval, hcase⟩ := ih (by omega)
      rw [addDays_succ]
      refine ⟨nextDay_valid _ hval, ?_⟩
      rcases hcase with heq | ⟨hle, hday⟩
      · rw [heq] at hval ⊢
        have hub : d.day + k ≤ daysInMonth d.year d.month := hval.2.2.2
        by_cases hlt : d.day + k < daysInMonth d.year d.month
        · left
          unfold nextDay
          dsimp only
          rw [if_pos hlt]
          congr 1 <;> omega
        · right
          have hge := daysInMonth_ge d.year d.month
          refine ⟨?_, by omega⟩
          unfold nextDay
          dsimp only
          rw [if_neg hlt]
          split_ifs <;> dsimp only <;> omega
      · refine Or.inr ⟨?_, hday⟩
        have := nextDay_day_le (addDays k d)
        omega
  obtain ⟨hval7, hcase⟩ := Q 7 (le_refl 7)
  rcases hcase with heq | ⟨hle, hday⟩
  · rw [heq]
    dsimp only
    omega
  · omega

lemma valid_day_lt100 (d : GDate) (h : d.valid) : d.day < 100 := by
  have := daysInMonth_le d.year d.month
  obtain ⟨-, -, -, h4⟩ := h
  omega

lemma digitChar_inj : ∀ a < 10, ∀ b < 10, Nat.digitChar a = Nat.digitChar b → a = b := by
  decide

lemma digitChar_isDigit : ∀ a < 10, (Nat.digitChar a).isDigit = true := by decide

lemma digitChar_toNat : ∀ a < 10, (Nat.digitChar a).toNat = 48 + a := by decide

lemma jsNumber_pad2 (n : ℕ) (h : n < 100) : jsNumber (pad2 n) = some (n : ℤ) := by
  have h1 : n / 10 % 10 < 10 := Nat.mod_lt _ (by omega)
  have h2 : n % 10 < 10 := Nat.mod_lt _ (by omega)
  unfold jsNumber pad2
  rw [if_pos]
  · simp only [List.foldl_cons, List.foldl_nil, digitChar_toNat _ h1, digitChar_toNat _ h2,
      Option.some.injEq]
    have : (0 * 10 + (48 + n / 10 % 10 - 48)) * 10 + (48 + n % 10 - 48) = n := by omega
    rw [this]
  · simp only [List.all_cons, List.all_nil, digitChar_isDigit _ h1, digitChar_isDigit _ h2,
      Bool.and_true]

lemma rolloverId_data (wd : String) (d : GDate) (hh mm : ℕ) :
    (buildAutoAuctionRolloverId { partsOfDate wd d hh mm with minute := "00" }).data =
      'a' :: 'u' :: 'c' :: 't' :: 'i' :: 'o' :: 'n' :: '-' ::
      Nat.digitChar (d.year / 1000 % 10) :: Nat.digitChar (d.year / 100 % 10) ::
      Nat.digitChar (d.year / 10 % 10) :: Nat.digitChar (d.year % 10) :: '-' ::
      Nat.digitChar (d.month / 10 % 10) :: Nat.digitChar (d.month % 10) :: '-' ::
      Nat.digitChar (d.day / 10 % 10) :: Nat.digitChar (d.day % 10) :: '-' ::
      Nat.digitChar (hh / 10 % 10) :: Nat.digitChar (hh % 10) :: '0' :: '0' :: 'P' :: 'T' ::
      [] := rfl

lemma rolloverId_inj_day (wd1 wd2 : String) (d1 d2 : GDate) (h1 h2 m1 m2 : ℕ)
    (hday1 : d1.day < 100) (hday2 : d2.day < 100)
    (heq : buildAutoAuctionRolloverId { partsOfDate wd1 d1 h1 m1 with minute := "00" } =
      buildAutoAuctionRolloverId { partsOfDate wd2 d2 h2 m2 with minute := "00" }) :
    d1.day = d2.day := by
  have hdata := congrArg String.data heq
  rw [rolloverId_data, rolloverId_data] at hdata
  simp only [List.cons.injEq, eq_self_iff_true, true_and, and_true] at hdata
  obtain ⟨-, -, -, -, -, -, hd10, hd1, -, -⟩ := hdata
  have e1 := digitChar_inj _ (Nat.mod_lt _ (by omega)) _ (Nat.mod_lt _ (by omega)) hd10
  have e2 := digitChar_inj _ (Nat.mod_lt _ (by omega)) _ (Nat.mod_lt _ (by omega)) hd1
  omega

lemma weeklyWindowCheck_partsOfDate (wd : String) (d : GDate) (hh mm : ℕ)
    (hh100 : hh < 100) (mm100 : mm < 100) :
    weeklyWindowCheck (partsOfDate wd d hh mm) = true ↔
      (wd = "Sun" ∧ hh = 16 ∧ mm ≤ 10) := by
  have hhour : jsNumber (partsOfDate wd d hh mm).hour = some (hh : ℤ) := jsNumber_pad2 hh hh100
  have hmin : jsNumber (partsOfDate wd d hh mm).minute = some (mm : ℤ) := jsNumber_pad2 mm mm100
  rw [weeklyWindowCheck, hhour, hmin]
  simp only [Bool.and_eq_true, decide_eq_true_eq, Option.some.injEq]
  constructor
  · rintro ⟨⟨hwd, hhv⟩, hmv1, hmv2⟩
    exact ⟨hwd, by omega, by omega⟩
  · rintro ⟨hwd, hhv, hmv⟩
    exact ⟨⟨hwd, by omega⟩, by omega, by omega⟩

lemma contains_iff_mem' (l : List ℤ) (x : ℤ) : l.contains x = true ↔ x ∈ l :=
  List.elem_iff

lemma bidLE_refl (a : Bid) : bidLE a a = true := by simp [bidLE]

lemma insertionSort_head_le (g : List Bid) (w : Bid)
    (hw : (g.insertionSort bidOrder).head? = some w) :
    w ∈ g ∧ ∀ b ∈ g, bidLE w b = true := by
  have hsorted := List.sorted_insertionSort bidOrder g
  rcases hs : g.insertionSort bidOrder with _ | ⟨x, rest⟩
  · rw [hs] at hw; cases hw
  rw [hs] at hw hsorted
  simp only [List.head?_cons, Option.some.injEq] at hw
  subst hw
  have hmem : x ∈ g := (List.mem_insertionSort bidOrder).mp (by rw [hs]; exact List.mem_cons_self x rest)
  refine ⟨hmem, ?_⟩
  intro b hb
  have hb' : b ∈ x :: rest := by
    rw [← hs]
    exact (List.mem_insertionSort bidOrder).mpr hb
  rcases List.mem_cons.mp hb' with rfl | hb'
  · exact bidLE_refl b
  · exact (List.pairwise_cons.mp hsorted).1 b hb'

/-- the roster ordering invariant as the spec words it: all forwards before all
defensemen, descending salary within a position group, ascending name on equal
position and salary. -/
def rosterSpecLe (a b : RosterEntry) : Prop :=
  (¬posOrF a.position = "D" ∧ posOrF b.position = "D") ∨
  ((posOrF a.position = "D" ↔ posOrF b.position = "D") ∧ b.salary < a.salary) ∨
  ((posOrF a.position = "D" ↔ posOrF b.position = "D") ∧ a.salary = b.salary ∧ a.name ≤ b.name)

def RosterOrdered (roster : List RosterEntry) : Prop := roster.Pairwise rosterSpecLe

lemma rosterLE_implies_spec (a b : RosterEntry) (h : rosterLE a b = true) : rosterSpecLe a b := by
  unfold rosterSpecLe
  by_cases pa : posOrF a.position = "D" <;> by_cases pb : posOrF b.position = "D" <;>
    simp [rosterLE, pa, pb] at h ⊢ <;>
      split_ifs at h <;>
        simp_all <;> omega

lemma addDays_valid (n : ℕ) (d : GDate) (h : d.valid) : (addDays n d).valid := by
  induction n generalizing d with
  | zero => exact h
  | succ n ih => exact ih (nextDay d) (nextDay_valid d h)

lemma resolveFold_def (s : LeagueState) (n : ℤ) (r : Nat → ℚ) : resolveFold s n r =
    ((groupKeys (s.freeAgents.filter (fun b => !b.resolved))).map
      (fun k => (s.freeAgents.filter (fun b => !b.resolved)).filter
        (fun b => decide (bidKey b = k)))).foldl (resolveGroup n r) ⟨s.teams, [], []⟩ := rfl

/-! Concrete fixtures used by the examples below. -/

def teamA : Team := ⟨"TeamA", [], []⟩
def teamB : Team := ⟨"TeamB", [], []⟩
def bidXA : Bid := ⟨1, "X", "TeamA", 40, none, 100, false, none⟩
def bidXB : Bid := ⟨2, "X", "TeamB", 40, none, 50, false, none⟩
def contestedState : LeagueState :=
  ⟨[teamA, teamB], [bidXA, bidXB], [], [], [], ⟨false⟩, none, none, none⟩

/-- C1 (counterexample): two invocations of `resolveAuctionsServer` on the same
state and instant differ when `Math.random()` returns different values (the
`id` of the new log entry embeds the random draw). -/
theorem resolveAuctionsServer_not_run_identical :
    ¬(resolveAuctionsServer contestedState 1000 (fun _ => 0) =
      resolveAuctionsServer contestedState 1000 (fun _ => (1 : ℚ)/2)) := by
  intro h
  have h2 : ([((1000 : ℤ) : ℚ) + 0] : List ℚ) = [((1000 : ℤ) : ℚ) + (1 : ℚ)/2] :=
    congrArg (fun x => x.newLogs.map (fun e => e.id)) h
  simp only [List.cons.injEq, and_true] at h2
  norm_num at h2

/-- C1 (amended): for a fixed state and instant, `resolveAuctionsServer` is
deterministic in everything except the `id` field of newly created log
entries, which embeds a fresh `Math.random()` draw: the returned teams and the
free-agent pool are equal across runs, and the logs are equal after erasing
the new entries' `id` fields. -/
theorem resolveAuctionsServer_deterministic_up_to_logIds :
    ∀ (state : LeagueState) (nowMs : ℤ) (r1 r2 : Nat → ℚ),
      (resolveAuctionsServer state nowMs r1).nextTeams =
        (resolveAuctionsServer state nowMs r2).nextTeams ∧
      (resolveAuctionsServer state nowMs r1).nextFreeAgents =
        (resolveAuctionsServer state nowMs r2).nextFreeAgents ∧
      (resolveAuctionsServer state nowMs r1).newLogs.map LogEntry.eraseId =
        (resolveAuctionsServer state nowMs r2).newLogs.map LogEntry.eraseId ∧
      (resolveAuctionsServer state nowMs r1).nextLeagueLog.map LogEntry.eraseId =
        (resolveAuctionsServer state nowMs r2).nextLeagueLog.map LogEntry.eraseId := by
  intro s n r1 r2
  obtain ⟨ht, hi, hl, hn⟩ := foldGroups_rand_congr n r1 r2
    ((groupKeys (s.freeAgents.filter (fun b => !b.resolved))).map
      (fun k => (s.freeAgents.filter (fun b => !b.resolved)).filter
        (fun b => decide (bidKey b = k))))
    ⟨s.teams, [], []⟩ ⟨s.teams, [], []⟩ rfl rfl rfl rfl
  rw [resolveAuctionsServer_eq s n r1, resolveAuctionsServer_eq s n r2]
  refine ⟨?_, ?_, ?_, ?_⟩
  · simpa only [resolveFold_def] using ht
  · rw [resolveFold_def, resolveFold_def, hi]
  · simpa only [resolveFold_def] using hl
  · simp only [List.map_append, resolveFold_def]
    rw [hl]

/-- C3: the weekly jobs' in-window test holds exactly when the local
wall-clock fields are Sunday, hour 16, minute in [0, 10]; outside that window
neither job mutates or saves anything. -/
theorem weeklyWindow_iff_sunday_sixteen :
    (∀ (wd : String) (d : GDate) (hh mm : ℕ), hh < 100 → mm < 100 →
      (weeklyWindowCheck (partsOfDate wd d hh mm) = true ↔
        (wd = "Sun" ∧ hh = 16 ∧ mm ≤ 10))) ∧
    (∀ (p : PTParts) (store : LeagueState) (nowMs : ℤ) (rand : Nat → ℚ),
      weeklyWindowCheck p = false →
      tryAutoAuctionRollover p store nowMs rand = (store, false) ∧
      tryAutoWeeklySnapshot p store = (store, none)) := by
  constructor
  · intro wd d hh mm hh100 mm100
    exact weeklyWindowCheck_partsOfDate wd d hh mm hh100 mm100
  · intro p store nowMs rand hfalse
    constructor
    · unfold tryAutoAuctionRollover
      rw [hfalse]
      rfl
    · unfold tryAutoWeeklySnapshot
      rw [hfalse]
      rfl

theorem weeklyWindow_iff_sunday_sixteen_witness :
    (16 : ℕ) < 100 ∧ (5 : ℕ) < 100 ∧
    (weeklyWindowCheck (partsOfDate "Sun" ⟨2025, 12, 14⟩ 16 5) = true ↔
      ("Sun" = "Sun" ∧ 16 = 16 ∧ 5 ≤ 10)) :=
  ⟨by decide, by decide,
    weeklyWindow_iff_sunday_sixteen.1 "Sun" ⟨2025, 12, 14⟩ 16 5 (by decide) (by decide)⟩

/-- C4: the rollover window identifier normalizes the minute to `"00"` and has
the fixed form `auction-YYYY-MM-DD-HH00PT`; it is identical for any two
instants sharing the local date and hour (in particular all ticks of one
10-minute window), and differs for windows one week apart because the
day-of-month differs. -/
theorem windowId_minute_normalized_weekly_distinct :
    (∀ (wd : String) (d : GDate) (hh mm : ℕ),
      buildAutoAuctionRolloverId { partsOfDate wd d hh mm with minute := "00" } =
        "auction-" ++ pad4 d.year ++ "-" ++ pad2 d.month ++ "-" ++ pad2 d.day ++ "-" ++
          pad2 hh ++ "00PT") ∧
    (∀ (wd1 wd2 : String) (d : GDate) (hh mm1 mm2 : ℕ),
      buildAutoAuctionRolloverId { partsOfDate wd1 d hh mm1 with minute := "00" } =
        buildAutoAuctionRolloverId { partsOfDate wd2 d hh mm2 with minute := "00" }) ∧
    (∀ d : GDate, d.valid → ∀ (wd1 wd2 : String) (hh mm1 mm2 : ℕ),
      buildAutoAuctionRolloverId { partsOfDate wd1 (addDays 7 d) hh mm1 with minute := "00" } ≠
        buildAutoAuctionRolloverId { partsOfDate wd2 d hh mm2 with minute := "00" }) := by
  refine ⟨fun wd d hh mm => rfl, fun wd1 wd2 d hh mm1 mm2 => rfl, ?_⟩
  intro d hv wd1 wd2 hh mm1 mm2 heq
  have hd7 := addDays7_day_ne d hv
  have hv7 := addDays_valid 7 d hv
  exact hd7 (rolloverId_inj_day wd1 wd2 (addDays 7 d) d hh hh mm1 mm2
    (valid_day_lt100 _ hv7) (valid_day_lt100 _ hv) heq)

theorem windowId_minute_normalized_weekly_distinct_witness :
    GDate.valid ⟨2025, 12, 14⟩ ∧
    buildAutoAuctionRolloverId
        { partsOfDate "Sun" (addDays 7 ⟨2025, 12, 14⟩) 16 0 with minute := "00" } ≠
      buildAutoAuctionRolloverId { partsOfDate "Sun" ⟨2025, 12, 14⟩ 16 3 with minute := "00" } :=
  ⟨by decide,
    windowId_minute_normalized_weekly_distinct.2.2 ⟨2025, 12, 14⟩ (by decide) "Sun" "Sun" 16 0 3⟩

def emptyBody : SaveBody := ⟨none, none, none, none, none, none, none, none, none⟩

def prevEmptySnapshotMarker : LeagueState :=
  ⟨[], [], [], [], [], ⟨false⟩, none, some "", none⟩

/-- C9 (counterexample): a persisted state whose `lastAutoWeeklySnapshotId` is
the empty string is not preserved verbatim by `POST /api/league` — the
`prev.marker || null` falsy check turns it into `null`. -/
theorem postApiLeague_empty_marker_not_verbatim :
    (postApiLeague prevEmptySnapshotMarker emptyBody).lastAutoWeeklySnapshotId ≠
      prevEmptySnapshotMarker.lastAutoWeeklySnapshotId := by decide

/-- C9 (amended): the save endpoint ignores caller-supplied marker fields; it
keeps the prior state's markers verbatim whenever they are not the (falsy)
empty string, mapping an empty-string marker to `null`, and takes all the
listed collections from the request body. -/
theorem postApiLeague_marker_preservation :
    ∀ (prev : LeagueState) (body : SaveBody),
      (prev.lastAutoWeeklySnapshotId ≠ some "" →
        (postApiLeague prev body).lastAutoWeeklySnapshotId = prev.lastAutoWeeklySnapshotId) ∧
      (prev.lastAutoAuctionRolloverId ≠ some "" →
        (postApiLeague prev body).lastAutoAuctionRolloverId = prev.lastAutoAuctionRolloverId) ∧
      (postApiLeague prev body).lastAutoWeeklySnapshotId =
        orNullStr prev.lastAutoWeeklySnapshotId ∧
      (postApiLeague prev body).lastAutoAuctionRolloverId =
        orNullStr prev.lastAutoAuctionRolloverId ∧
      (postApiLeague prev body).teams = body.teams.getD [] ∧
      (postApiLeague prev body).freeAgents = body.freeAgents.getD [] ∧
      (postApiLeague prev body).leagueLog = body.leagueLog.getD [] ∧
      (postApiLeague prev body).tradeProposals = body.tradeProposals.getD [] ∧
      (postApiLeague prev body).tradeBlock = body.tradeBlock.getD [] := by
  intro prev body
  refine ⟨?_, ?_, rfl, rfl, rfl, rfl, rfl, rfl, rfl⟩
  · intro h
    show orNullStr prev.lastAutoWeeklySnapshotId = prev.lastAutoWeeklySnapshotId
    cases hm : prev.lastAutoWeeklySnapshotId with
    | none => rfl
    | some s =>
      have hs : ¬(s = "") := fun hs => h (by rw [hm, hs])
      simp [orNullStr, hs]
  · intro h
    show orNullStr prev.lastAutoAuctionRolloverId = prev.lastAutoAuctionRolloverId
    cases hm : prev.lastAutoAuctionRolloverId with
    | none => rfl
    | some s =>
      have hs : ¬(s = "") := fun hs => h (by rw [hm, hs])
      simp [orNullStr, hs]

def prevWithMarkers : LeagueState :=
  ⟨[], [], [], [], [], ⟨false⟩, none, some "auto-2025-12-14-1600PT",
    some "auction-2025-12-14-1600PT"⟩

def bodyForgingMarkers : SaveBody :=
  ⟨some [], some [], some [], some [], some [], some ⟨true⟩, some 5,
    some "forged-a", some "forged-b"⟩

theorem postApiLeague_marker_preservation_witness :
    (postApiLeague prevWithMarkers bodyForgingMarkers).lastAutoWeeklySnapshotId =
      prevWithMarkers.lastAutoWeeklySnapshotId ∧
    (postApiLeague prevWithMarkers bodyForgingMarkers).lastAutoAuctionRolloverId =
      prevWithMarkers.lastAutoAuctionRolloverId :=
  ⟨(postApiLeague_marker_preservation prevWithMarkers bodyForgingMarkers).1 (by decide),
    (postApiLeague_marker_preservation prevWithMarkers bodyForgingMarkers).2.1 (by decide)⟩

/-- C2: a weekly job whose persisted marker already equals the window id of
the current tick is a complete no-op (no state mutation, no save, no snapshot
write); consequently, after a successful run, any further tick whose local
date and hour match (any tick of the same window) leaves the stored state
unchanged. -/
theorem weeklyJobs_idempotent_within_window :
    ∀ (p q : PTParts) (store : LeagueState) (n1 n2 : ℤ) (r1 r2 : Nat → ℚ),
      (store.lastAutoAuctionRolloverId =
          some (buildAutoAuctionRolloverId { p with minute := "00" }) →
        tryAutoAuctionRollover p store n1 r1 = (store, false)) ∧
      (store.lastAutoWeeklySnapshotId =
          some (buildAutoSnapshotId { p with minute := "00" }) →
        tryAutoWeeklySnapshot p store = (store, none)) ∧
      (p.year = q.year → p.month = q.month → p.day = q.day → p.hour = q.hour →
        (tryAutoAuctionRollover p store n1 r1).2 = true →
        tryAutoAuctionRollover q (tryAutoAuctionRollover p store n1 r1).1 n2 r2 =
          ((tryAutoAuctionRollover p store n1 r1).1, false)) ∧
      (p.year = q.year → p.month = q.month → p.day = q.day → p.hour = q.hour →
        (tryAutoWeeklySnapshot p store).2.isSome = true →
        tryAutoWeeklySnapshot q (tryAutoWeeklySnapshot p store).1 =
          ((tryAutoWeeklySnapshot p store).1, none)) := by
  intro p q store n1 n2 r1 r2
  refine ⟨?_, ?_, ?_, ?_⟩
  · intro hmark
    unfold tryAutoAuctionRollover
    by_cases hchk : weeklyWindowCheck p <;> simp [hchk, hmark]
  · intro hmark
    unfold tryAutoWeeklySnapshot
    by_cases hchk : weeklyWindowCheck p <;> simp [hchk, hmark]
  · intro hy hm hd hh hfired
    have hbuild : buildAutoAuctionRolloverId { q with minute := "00" } =
        buildAutoAuctionRolloverId { p with minute := "00" } := by
      simp [buildAutoAuctionRolloverId, hy, hm, hd, hh]
    unfold tryAutoAuctionRollover at hfired ⊢
    by_cases hchk : weeklyWindowCheck p
    · by_cases hmark : store.lastAutoAuctionRolloverId =
          some (buildAutoAuctionRolloverId { p with minute := "00" })
      · simp [hchk, hmark] at hfired
      · simp only [hchk, Bool.not_true, Bool.false_eq_true, if_false, hmark, if_neg]
        by_cases hchk2 : weeklyWindowCheck q <;>
          simp [hchk2, hmark, hbuild]
    · simp [hchk] at hfired
  · intro hy hm hd hh hfired
    have hbuild : buildAutoSnapshotId { q with minute := "00" } =
        buildAutoSnapshotId { p with minute := "00" } := by
      simp [buildAutoSnapshotId, hy, hm, hd, hh]
    unfold tryAutoWeeklySnapshot at hfired ⊢
    by_cases hchk : weeklyWindowCheck p
    · by_cases hmark : store.lastAutoWeeklySnapshotId =
          some (buildAutoSnapshotId { p with minute := "00" })
      · simp [hchk, hmark] at hfired
      · simp only [hchk, Bool.not_true, Bool.false_eq_true, if_false, hmark, if_neg]
        by_cases hchk2 : weeklyWindowCheck q <;>
          simp [hchk2, hmark, hbuild]
    · simp [hchk] at hfired

def sundayParts : PTParts := ⟨"Sun", "2025", "12", "14", "16", "05"⟩

def storeWithRolloverMarker : LeagueState :=
  ⟨[], [], [], [], [], ⟨false⟩, none, some "auto-2025-12-14-1600PT",
    some "auction-2025-12-14-1600PT"⟩

theorem weeklyJobs_idempotent_within_window_witness :
    tryAutoAuctionRollover sundayParts storeWithRolloverMarker 7 (fun _ => 0) =
      (storeWithRolloverMarker, false) ∧
    tryAutoWeeklySnapshot sundayParts storeWithRolloverMarker =
      (storeWithRolloverMarker, none) :=
  ⟨(weeklyJobs_idempotent_within_window sundayParts sundayParts storeWithRolloverMarker 7 7
      (fun _ => 0) (fun _ => 0)).1 (by decide),
    (weeklyJobs_idempotent_within_window sundayParts sundayParts storeWithRolloverMarker 7 7
      (fun _ => 0) (fun _ => 0)).2.1 (by decide)⟩

/-- C5: within every auction group the winner (the head of the comparator-
sorted group) has the maximal amount, with exact amount ties going to the
earliest timestamp; and the end-to-end contested example (`TeamA` bids 40 at
t=100, `TeamB` bids 40 at t=50 for `"X"`, resolved at `now=1000`) signs `"X"`
to `TeamB` at salary 40 with `buyoutLockedUntil = 1000 + 1209600000`, one
`faSigned` log entry, and an empty pool. -/
theorem auctionWinner_maxAmount_earliestTs :
    (∀ (bids : List Bid) (k : String) (w : Bid),
      ((bids.filter (fun b => decide (bidKey b = k))).insertionSort bidOrder).head? = some w →
      (w ∈ bids.filter (fun b => decide (bidKey b = k)) ∧
        ∀ b ∈ bids.filter (fun b => decide (bidKey b = k)),
          b.amount < w.amount ∨ (b.amount = w.amount ∧ w.timestamp ≤ b.timestamp))) ∧
    (∀ rand : Nat → ℚ,
      resolveAuctionsServer contestedState 1000 rand =
        { nextTeams := [teamA,
            { name := "TeamB",
              roster := [{ name := "X", salary := 40, position := some "F",
                           buyoutLockedUntil := 1000 + 1209600000 }],
              buyouts := [] }],
          nextFreeAgents := [],
          nextLeagueLog := [{ type := "faSigned", id := ((1000 : ℤ) : ℚ) + rand 0,
                              team := "TeamB", player := "X", amount := 40, position := "F",
                              timestamp := 1000 }],
          newLogs := [{ type := "faSigned", id := ((1000 : ℤ) : ℚ) + rand 0,
                        team := "TeamB", player := "X", amount := 40, position := "F",
                        timestamp := 1000 }] }) := by
  constructor
  · intro bids k w hw
    obtain ⟨hmem, hall⟩ := insertionSort_head_le _ w hw
    refine ⟨hmem, ?_⟩
    intro b hb
    have hle := hall b hb
    simp only [bidLE] at hle
    split_ifs at hle with h
    · right
      exact ⟨h.symm, by simpa using hle⟩
    · left
      simpa using hle
  · intro rand
    rfl

theorem auctionWinner_maxAmount_earliestTs_witness :
    bidXB ∈ [bidXA, bidXB].filter (fun b => decide (bidKey b = "x")) ∧
    ∀ b ∈ [bidXA, bidXB].filter (fun b => decide (bidKey b = "x")),
      b.amount < bidXB.amount ∨ (b.amount = bidXB.amount ∧ bidXB.timestamp ≤ b.timestamp) :=
  auctionWinner_maxAmount_earliestTs.1 [bidXA, bidXB] "x" bidXB (by decide)

def bidJane1 : Bid := ⟨1, "Jane Doe", "T1", 30, none, 10, false, none⟩
def bidJane2 : Bid := ⟨2, "  jane doe ", "T2", 20, none, 5, false, none⟩
def janeState : LeagueState :=
  ⟨[⟨"T1", [], []⟩, ⟨"T2", [], []⟩], [bidJane1, bidJane2], [], [], [], ⟨false⟩, none, none, none⟩

/-- C6: bids are grouped by `auctionKey` when present, otherwise by the
lowercase-trimmed player name, so bids whose player names agree after
trimming and lowercasing get the same grouping key and land in the same
group; the `"Jane Doe"` / `"  jane doe "` example resolves as a single
auction with one winner. -/
theorem bidsGroupedByNormalizedName :
    (∀ b1 b2 : Bid, b1.auctionKey = none → b2.auctionKey = none →
      jsToLower (jsTrim b1.player) = jsToLower (jsTrim b2.player) →
      bidKey b1 = bidKey b2) ∧
    (∀ (bids : List Bid) (b1 b2 : Bid) (k : String), b1 ∈ bids → b2 ∈ bids →
      bidKey b1 = k → bidKey b2 = k →
      (b1 ∈ bids.filter (fun b => decide (bidKey b = k)) ∧
       b2 ∈ bids.filter (fun b => decide (bidKey b = k)))) ∧
    (∀ rand : Nat → ℚ,
      resolveAuctionsServer janeState 77 rand =
        { nextTeams := [
            { name := "T1",
              roster := [{ name := "Jane Doe", salary := 30, position := some "F",
                           buyoutLockedUntil := 77 + 1209600000 }],
              buyouts := [] },
            ⟨"T2", [], []⟩],
          nextFreeAgents := [],
          nextLeagueLog := [{ type := "faSigned", id := ((77 : ℤ) : ℚ) + rand 0,
                              team := "T1", player := "Jane Doe", amount := 30, position := "F",
                              timestamp := 77 }],
          newLogs := [{ type := "faSigned", id := ((77 : ℤ) : ℚ) + rand 0,
                        team := "T1", player := "Jane Doe", amount := 30, position := "F",
                        timestamp := 77 }] }) := by
  refine ⟨?_, ?_, fun rand => rfl⟩
  · intro b1 b2 h1 h2 hp
    simp only [bidKey, h1, h2]
    rw [hp]
  · intro bids b1 b2 k hb1 hb2 hk1 hk2
    exact ⟨List.mem_filter.mpr ⟨hb1, by simp [hk1]⟩, List.mem_filter.mpr ⟨hb2, by simp [hk2]⟩⟩

theorem bidsGroupedByNormalizedName_witness :
    bidKey bidJane1 = bidKey bidJane2 :=
  bidsGroupedByNormalizedName.1 bidJane1 bidJane2 (by decide) (by decide) (by decide)

def entryA : RosterEntry := ⟨"a", 50, some "F", 0⟩
def entryB : RosterEntry := ⟨"b", 80, some "D", 0⟩
def bidP : Bid := ⟨1, "p", "T", 60, some "F", 0, false, none⟩
def rosterExampleState : LeagueState :=
  ⟨[⟨"T", [entryA, entryB], []⟩], [bidP], [], [], [], ⟨false⟩, none, none, none⟩

/-- C8: every roster that auction resolution mutates satisfies the ordering
invariant (forwards before defense, descending salary, ascending name on
ties); the example team `[{F,50},{D,80}]` winning an F at 60 ends with
`[{F,60},{F,50},{D,80}]`. -/
theorem mutatedRosters_ordered :
    (∀ (state : LeagueState) (nowMs : ℤ) (rand : Nat → ℚ) (i : ℕ) (tOld tNew : Team),
      state.teams[i]? = some tOld →
      (resolveAuctionsServer state nowMs rand).nextTeams[i]? = some tNew →
      tNew.roster ≠ tOld.roster →
      RosterOrdered tNew.roster) ∧
    (∀ rand : Nat → ℚ,
      resolveAuctionsServer rosterExampleState 0 rand =
        { nextTeams := [⟨"T", [⟨"p", 60, some "F", 0 + 1209600000⟩, entryA, entryB], []⟩],
          nextFreeAgents := [],
          nextLeagueLog := [{ type := "faSigned", id := ((0 : ℤ) : ℚ) + rand 0, team := "T",
                              player := "p", amount := 60, position := "F", timestamp := 0 }],
          newLogs := [{ type := "faSigned", id := ((0 : ℤ) : ℚ) + rand 0, team := "T",
                        player := "p", amount := 60, position := "F", timestamp := 0 }] }) := by
  constructor
  · intro s n r i tOld tNew hold hnew hne
    rw [resolveAuctionsServer_eq] at hnew
    dsimp only at hnew
    rw [resolveFold_def] at hnew
    rcases foldGroups_roster_shape n r
        ((groupKeys (s.freeAgents.filter (fun b => !b.resolved))).map
          (fun k => (s.freeAgents.filter (fun b => !b.resolved)).filter
            (fun b => decide (bidKey b = k)))) ⟨s.teams, [], []⟩ i with hsame | ⟨tm, l, hsome, hroster⟩
    · rw [hsame] at hnew
      have hto : some tOld = some tNew := by
        rw [← hold, ← hnew]
      cases hto
      exact absurd rfl hne
    · rw [hsome] at hnew
      cases hnew
      rw [hroster]
      exact List.Pairwise.imp (fun h => rosterLE_implies_spec _ _ h)
        (List.sorted_insertionSort rosterOrder l)
  · intro rand
    rfl

theorem mutatedRosters_ordered_witness :
    rosterExampleState.teams[0]? = some ⟨"T", [entryA, entryB], []⟩ ∧
    (resolveAuctionsServer rosterExampleState 0 (fun _ => 0)).nextTeams[0]? =
      some ⟨"T", [⟨"p", 60, some "F", 1209600000⟩, entryA, entryB], []⟩ ∧
    RosterOrdered [⟨"p", 60, some "F", 1209600000⟩, entryA, entryB] :=
  ⟨by decide, by decide,
    mutatedRosters_ordered.1 rosterExampleState 0 (fun _ => 0) 0 ⟨"T", [entryA, entryB], []⟩
      ⟨"T", [⟨"p", 60, some "F", 1209600000⟩, entryA, entryB], []⟩ (by decide) (by decide)
      (by decide)⟩

lemma groupKeys_filter_ne (k : String) (bids : List Bid) :
    groupKeys (bids.filter (fun b => !decide (bidKey b = k))) =
      (groupKeys bids).filter (fun s => !decide (s = k)) := by
  have h := groupKeysFrom_filter_ne k bids []
  simpa [groupKeys] using h

/-- C7: a group whose winning bid names a nonexistent team has all its bids
removed from the pool, while the teams, the new log entries, and the
resulting league log are exactly those produced with the whole group deleted
from the pool (the group silently produces no roster change and no log
entry). -/
theorem unknownWinningTeam_dropsGroupSilently :
    ∀ (state : LeagueState) (nowMs : ℤ) (rand : Nat → ℚ) (k : String) (w : Bid),
      k ∈ groupKeys (state.freeAgents.filter (fun b => !b.resolved)) →
      (((state.freeAgents.filter (fun b => !b.resolved)).filter
          (fun b => decide (bidKey b = k))).insertionSort bidOrder).head? = some w →
      (∀ t ∈ state.teams, t.name ≠ w.team) →
      ((∀ b ∈ state.freeAgents, b.resolved = false → bidKey b = k →
          b ∉ (resolveAuctionsServer state nowMs rand).nextFreeAgents) ∧
        (resolveAuctionsServer state nowMs rand).nextTeams =
          (resolveAuctionsServer
            { state with
              freeAgents := state.freeAgents.filter
                              (fun b => !(!b.resolved && decide (bidKey b = k))) }
            nowMs rand).nextTeams ∧
        (resolveAuctionsServer state nowMs rand).newLogs =
          (resolveAuctionsServer
            { state with
              freeAgents := state.freeAgents.filter
                              (fun b => !(!b.resolved && decide (bidKey b = k))) }
            nowMs rand).newLogs ∧
        (resolveAuctionsServer state nowMs rand).nextLeagueLog =
          (resolveAuctionsServer
            { state with
              freeAgents := state.freeAgents.filter
                              (fun b => !(!b.resolved && decide (bidKey b = k))) }
            nowMs rand).nextLeagueLog) := by
  intro s n r k w hk hw hteam
  obtain ⟨l1, l2, hkeys, hnot1, hnot2⟩ :=
    nodup_mem_split k _ hk (nodup_groupKeys (s.freeAgents.filter (fun b => !b.resolved)))
  have hfilterkeys : (l1 ++ k :: l2).filter (fun x => !decide (x = k)) = l1 ++ l2 := by
    rw [List.filter_append, List.filter_cons_of_neg (by simp)]
    rw [List.filter_eq_self.mpr, List.filter_eq_self.mpr]
    · intro x hx
      simp only [Bool.not_eq_true', decide_eq_false_iff_not]
      intro hxe
      exact hnot2 (hxe ▸ hx)
    · intro x hx
      simp only [Bool.not_eq_true', decide_eq_false_iff_not]
      intro hxe
      exact hnot1 (hxe ▸ hx)
  -- the A-side fold: split at the k step
  have hA : resolveFold s n r =
      (l2.map (fun k' => (s.freeAgents.filter (fun b => !b.resolved)).filter
          (fun b => decide (bidKey b = k')))).foldl (resolveGroup n r)
        (resolveGroup n r
          ((l1.map (fun k' => (s.freeAgents.filter (fun b => !b.resolved)).filter
              (fun b => decide (bidKey b = k')))).foldl (resolveGroup n r)
            ⟨s.teams, [], []⟩)
          ((s.freeAgents.filter (fun b => !b.resolved)).filter
            (fun b => decide (bidKey b = k)))) := by
    rw [resolveFold_def, hkeys, List.map_append, List.map_cons, List.foldl_append,
      List.foldl_cons]
  -- the B-side fold equals the A-side fold with the k step skipped
  have hB : resolveFold
      { s with
        freeAgents := s.freeAgents.filter
                        (fun b => !(!b.resolved && decide (bidKey b = k))) } n r =
      (l2.map (fun k' => (s.freeAgents.filter (fun b => !b.resolved)).filter
          (fun b => decide (bidKey b = k')))).foldl (resolveGroup n r)
        ((l1.map (fun k' => (s.freeAgents.filter (fun b => !b.resolved)).filter
            (fun b => decide (bidKey b = k')))).foldl (resolveGroup n r)
          ⟨s.teams, [], []⟩) := by
    rw [resolveFold_def]
    dsimp only
    rw [activeOf_removeGroup, groupKeys_filter_ne, hkeys, hfilterkeys]
    rw [List.map_congr_left (g := fun k' =>
        (s.freeAgents.filter (fun b => !b.resolved)).filter
          (fun b => decide (bidKey b = k'))) ?hmap]
    · rw [List.map_append, List.foldl_append]
    case hmap =>
      intro x hx
      apply filter_key_of_ne
      intro hxe
      rcases List.mem_append.mp hx with hx | hx
      · exact hnot1 (hxe ▸ hx)
      · exact hnot2 (hxe ▸ hx)
  -- the k step only extends resolvedIds
  have hnames : ((l1.map (fun k' => (s.freeAgents.filter (fun b => !b.resolved)).filter
      (fun b => decide (bidKey b = k')))).foldl (resolveGroup n r)
        ⟨s.teams, [], []⟩).teams.map Team.name = s.teams.map Team.name :=
    foldGroups_names n r _ _
  have hstep := resolveGroup_unknownTeam n r
    ((l1.map (fun k' => (s.freeAgents.filter (fun b => !b.resolved)).filter
        (fun b => decide (bidKey b = k')))).foldl (resolveGroup n r) ⟨s.teams, [], []⟩)
    ((s.freeAgents.filter (fun b => !b.resolved)).filter (fun b => decide (bidKey b = k)))
    w hw
    (by
      rw [hnames]
      intro nm hnm
      obtain ⟨t, ht, rfl⟩ := List.mem_map.mp hnm
      exact hteam t ht)
  have hframe := foldGroups_frame n r
    (l2.map (fun k' => (s.freeAgents.filter (fun b => !b.resolved)).filter
        (fun b => decide (bidKey b = k'))))
    (resolveGroup n r
      ((l1.map (fun k' => (s.freeAgents.filter (fun b => !b.resolved)).filter
          (fun b => decide (bidKey b = k')))).foldl (resolveGroup n r) ⟨s.teams, [], []⟩)
      ((s.freeAgents.filter (fun b => !b.resolved)).filter (fun b => decide (bidKey b = k))))
    ((l1.map (fun k' => (s.freeAgents.filter (fun b => !b.resolved)).filter
        (fun b => decide (bidKey b = k')))).foldl (resolveGroup n r) ⟨s.teams, [], []⟩)
    (by rw [hstep]) (by rw [hstep])
  refine ⟨?_, ?_, ?_, ?_⟩
  · intro b hb hres hkey hmem
    rw [resolveAuctionsServer_eq] at hmem
    dsimp only at hmem
    obtain ⟨-, hpred⟩ := List.mem_filter.mp hmem
    have hmemid : b.id ∈ (resolveFold s n r).resolvedIds := by
      rw [hA]
      apply foldGroups_mem_resolvedIds
      apply resolveGroup_mem_resolvedIds
      exact List.mem_filter.mpr ⟨List.mem_filter.mpr ⟨hb, by simp [hres]⟩, by simp [hkey]⟩
    rw [Bool.not_eq_true'] at hpred
    rw [← contains_iff_mem' _ b.id] at hmemid
    rw [hpred] at hmemid
    cases hmemid
  · rw [resolveAuctionsServer_eq, resolveAuctionsServer_eq]
    dsimp only
    rw [hA, hB]
    exact hframe.1
  · rw [resolveAuctionsServer_eq, resolveAuctionsServer_eq]
    dsimp only
    rw [hA, hB]
    exact hframe.2
  · rw [resolveAuctionsServer_eq, resolveAuctionsServer_eq]
    dsimp only
    rw [hA, hB, hframe.2]



def lonelyBid : Bid := ⟨1, "x", "Nonexistent", 5, none, 0, false, none⟩
def nonexistentTeamState : LeagueState :=
  ⟨[⟨"T", [], []⟩], [lonelyBid], [], [], [], ⟨false⟩, none, none, none⟩

theorem unknownWinningTeam_dropsGroupSilently_witness :
    (∀ b ∈ nonexistentTeamState.freeAgents, b.resolved = false → bidKey b = "x" →
        b ∉ (resolveAuctionsServer nonexistentTeamState 9 (fun _ => 0)).nextFreeAgents) ∧
    (resolveAuctionsServer nonexistentTeamState 9 (fun _ => 0)).nextTeams =
      (resolveAuctionsServer
        { nonexistentTeamState with
          freeAgents := nonexistentTeamState.freeAgents.filter
                          (fun b => !(!b.resolved && decide (bidKey b = "x"))) }
        9 (fun _ => 0)).nextTeams ∧
    (resolveAuctionsServer nonexistentTeamState 9 (fun _ => 0)).newLogs =
      (resolveAuctionsServer
        { nonexistentTeamState with
          freeAgents := nonexistentTeamState.freeAgents.filter
                          (fun b => !(!b.resolved && decide (bidKey b = "x"))) }
        9 (fun _ => 0)).newLogs ∧
    (resolveAuctionsServer nonexistentTeamState 9 (fun _ => 0)).nextLeagueLog =
      (resolveAuctionsServer
        { nonexistentTeamState with
          freeAgents := nonexistentTeamState.freeAgents.filter
                          (fun b => !(!b.resolved && decide (bidKey b = "x"))) }
        9 (fun _ => 0)).nextLeagueLog :=
  unknownWinningTeam_dropsGroupSilently nonexistentTeamState 9 (fun _ => 0) "x" lonelyBid
    (by decide) (by decide) (by decide)

lemma nextFreeAgents_subset (state : LeagueState) (n : ℤ) (r : Nat → ℚ) :
    ∀ x ∈ (resolveAuctionsServer state n r).nextFreeAgents, x ∈ state.freeAgents := by
  rw [resolveAuctionsServer_eq]
  intro x hx
  exact (List.mem_filter.mp hx).1

lemma emptyKeyBid_mem_next (state : LeagueState) (n : ℤ) (r : Nat → ℚ) (b : Bid)
    (hb : b ∈ state.freeAgents) (hkey : bidKey b = "")
    (huniq : ∀ x ∈ state.freeAgents, x.id = b.id → x = b) :
    b ∈ (resolveAuctionsServer state n r).nextFreeAgents := by
  rw [resolveAuctionsServer_eq]
  dsimp only
  refine List.mem_filter.mpr ⟨hb, ?_⟩
  rw [Bool.not_eq_true']
  rw [show ((resolveFold state n r).resolvedIds.contains b.id = false) ↔
      ¬ b.id ∈ (resolveFold state n r).resolvedIds from by
    rw [← contains_iff_mem' _ b.id]
    simp]
  intro hmem
  rw [resolveFold_def] at hmem
  obtain ⟨t, hteq, hsrc⟩ := foldGroups_resolvedIds n r _ ⟨state.teams, [], []⟩
  rw [hteq] at hmem
  simp only [List.nil_append] at hmem
  obtain ⟨g, hg, x, hx, hxid⟩ := hsrc b.id hmem
  obtain ⟨k', hk', rfl⟩ := List.mem_map.mp hg
  have hxactive := List.mem_filter.mp hx
  have hxkey : bidKey x = k' := by simpa using hxactive.2
  have hxb : x = b := huniq x (List.mem_of_mem_filter hxactive.1) hxid
  obtain ⟨-, -, -, hk'ne⟩ := (mem_groupKeys _ k').mp hk'
  exact hk'ne (by rw [← hxkey, hxb, hkey])

/-- C10: an unresolved bid whose grouping key normalizes to the empty string
belongs to no auction group, stays in the free-agent pool, produces no roster
change and no log entry (resolution equals resolution with the bid deleted),
and survives every sequence of rollovers. -/
theorem emptyKeyBid_skipped_and_persists :
    ∀ (state : LeagueState) (nowMs : ℤ) (rand : Nat → ℚ) (b : Bid),
      b ∈ state.freeAgents → b.resolved = false → bidKey b = "" →
      (∀ x ∈ state.freeAgents, x.id = b.id → x = b) →
      ((∀ k ∈ groupKeys (state.freeAgents.filter (fun x => !x.resolved)),
          b ∉ (state.freeAgents.filter (fun x => !x.resolved)).filter
            (fun x => decide (bidKey x = k))) ∧
       b ∈ (resolveAuctionsServer state nowMs rand).nextFreeAgents ∧
       (resolveAuctionsServer state nowMs rand).nextTeams =
         (resolveAuctionsServer
           { state with
             freeAgents := state.freeAgents.filter (fun x => !decide (x.id = b.id)) }
           nowMs rand).nextTeams ∧
       (resolveAuctionsServer state nowMs rand).newLogs =
         (resolveAuctionsServer
           { state with
             freeAgents := state.freeAgents.filter (fun x => !decide (x.id = b.id)) }
           nowMs rand).newLogs ∧
       (resolveAuctionsServer state nowMs rand).nextLeagueLog =
         (resolveAuctionsServer
           { state with
             freeAgents := state.freeAgents.filter (fun x => !decide (x.id = b.id)) }
           nowMs rand).nextLeagueLog ∧
       (∀ runs : List (ℤ × (Nat → ℚ)),
         b ∈ (runs.foldl (fun st pr => applyRollover st pr.1 pr.2) state).freeAgents)) := by
  intro s n r b hb hres hkey huniq
  have hfoldeq : resolveFold
      { s with freeAgents := s.freeAgents.filter (fun x => !decide (x.id = b.id)) } n r =
      resolveFold s n r := by
    rw [resolveFold_def, resolveFold_def]
    dsimp only
    rw [filter_comm']
    have hpe : ∀ x ∈ s.freeAgents.filter (fun x => !x.resolved),
        (fun x => !decide (x.id = b.id)) x = false → bidKey x = "" := by
      intro x hx hpx
      simp only [Bool.not_eq_false', decide_eq_true_eq] at hpx
      rw [huniq x (List.mem_of_mem_filter hx) hpx, hkey]
    rw [show groupKeys ((s.freeAgents.filter (fun x => !x.resolved)).filter
          (fun x => !decide (x.id = b.id))) =
        groupKeys (s.freeAgents.filter (fun x => !x.resolved)) from
      groupKeysFrom_filter_of_empty _ _ hpe []]
    apply congrArg (List.foldl (resolveGroup n r) (⟨s.teams, [], []⟩ : ResolveAcc))
    apply List.map_congr_left
    intro k' hk'
    obtain ⟨-, -, -, hk'ne⟩ := (mem_groupKeys _ k').mp hk'
    rw [List.filter_filter]
    apply List.filter_congr
    intro x hx
    by_cases hxk : bidKey x = k'
    · have hxid : ¬(x.id = b.id) := by
        intro hid
        apply hk'ne
        rw [← hxk, huniq x (List.mem_of_mem_filter hx) hid, hkey]
      simp [hxk, hxid]
    · simp [hxk]
  refine ⟨?_, emptyKeyBid_mem_next s n r b hb hkey huniq, ?_, ?_, ?_, ?_⟩
  · intro k hk hmem
    have hbk : bidKey b = k := by simpa using (List.mem_filter.mp hmem).2
    obtain ⟨-, -, -, hkne⟩ := (mem_groupKeys _ k).mp hk
    exact hkne (by rw [← hbk, hkey])
  · rw [resolveAuctionsServer_eq, resolveAuctionsServer_eq]
    dsimp only
    rw [hfoldeq]
  · rw [resolveAuctionsServer_eq, resolveAuctionsServer_eq]
    dsimp only
    rw [hfoldeq]
  · rw [resolveAuctionsServer_eq, resolveAuctionsServer_eq]
    dsimp only
    rw [hfoldeq]
  · have H : ∀ (runs : List (ℤ × (Nat → ℚ))) (st : LeagueState), b ∈ st.freeAgents →
        (∀ x ∈ st.freeAgents, x.id = b.id → x = b) →
        b ∈ (runs.foldl (fun st pr => applyRollover st pr.1 pr.2) st).freeAgents := by
      intro runs
      induction runs with
      | nil => intro st hmem _; exact hmem
      | cons pr rs ih =>
        intro st hmem huniq'
        rw [List.foldl_cons]
        apply ih
        · exact emptyKeyBid_mem_next st pr.1 pr.2 b hmem hkey huniq'
        · intro x hx hid
          exact huniq' x (nextFreeAgents_subset st pr.1 pr.2 x hx) hid
    exact fun runs => H runs s hb huniq

def phantomBid : Bid := ⟨42, "   ", "T", 5, none, 0, false, none⟩
def phantomState : LeagueState :=
  ⟨[⟨"T", [], []⟩], [phantomBid], [], [], [], ⟨false⟩, none, none, none⟩

theorem emptyKeyBid_skipped_and_persists_witness :
    bidKey phantomBid = "" ∧
    phantomBid ∈ (resolveAuctionsServer phantomState 3 (fun _ => 0)).nextFreeAgents :=
  ⟨by decide, (emptyKeyBid_skipped_and_persists phantomState 3 (fun _ => 0) phantomBid
    (by decide) (by decide) (by decide) (by decide)).2.1⟩

end HundoLeago
